import Mathlib

/-!
Shallow embedding of the TWOM boss-timer plugin core
(`src/main.py`, `src/utils/boss_config.py`, `src/utils/scheduler.py`,
`src/utils/permission.py`, `src/utils/time_utils.py`).

Python strings are modelled as `List Char`, dictionaries as association
lists with overwrite-on-insert, datetimes either as integer seconds
(scheduler / store level, where only ordering and offsets matter) or as
structured calendar values (time parsing).  `datetime.fromisoformat` is an
abstract parameter `iso : Str → Option Int` since it is a stdlib call.
-/

namespace TwomBoss

/-- Python `str` modelled as a list of characters. -/
abbrev Str : Type := List Char

/-- Build a `Str` from a Lean string literal. -/
def str (s : String) : Str := s.data

/-- Python `str.lower` (character-wise). -/
def lowerS (s : Str) : Str := s.map Char.toLower

/-! ## Entity catalog (`utils/boss_config.py`) -/

/-- One catalog entry (a value of the `bosses.json` object). -/
structure BossData where
  aliases : List Str := []
  display_name : Option Str := none
  emoji : Option Str := none
  respawn_hours : Option Int := none
  respawn_minutes : Option Int := none
  respawn_seconds : Option Int := none
deriving DecidableEq, Repr

/-- The bosses dictionary, keyed by canonical boss name. -/
abbrev Bosses : Type := List (Str × BossData)

/-- Dictionary lookup (Python `dict.get(k)` / `m[k]`). -/
def lookupA {α : Type} (k : Str) : List (Str × α) → Option α
  | [] => none
  | e :: rest => if e.1 = k then some e.2 else lookupA k rest

/-- Remove a key from a dictionary (Python `del m[k]`). -/
def eraseA {α : Type} (k : Str) (m : List (Str × α)) : List (Str × α) :=
  m.filter (fun p => decide (p.1 ≠ k))

/-- Dictionary insert with overwrite (Python `dict[k] = v`). -/
def insertA {α : Type} (k : Str) (v : α) (m : List (Str × α)) : List (Str × α) :=
  (k, v) :: eraseA k m

/-- Fold one catalog entry into the alias map:
`alias_map[boss_name.lower()] = boss_name` then each alias lower-cased
(`build_alias_map` loop body, boss_config.py lines 53-59). -/
def stepB (m : List (Str × Str)) (e : Str × BossData) : List (Str × Str) :=
  e.2.aliases.foldl (fun m2 al => insertA (lowerS al) e.1 m2) (insertA (lowerS e.1) e.1 m)

/-- `build_alias_map` (boss_config.py lines 42-61). -/
def buildAliasMap (bosses : Bosses) : List (Str × Str) :=
  bosses.foldl stepB []

/-- `get_boss_by_alias` (boss_config.py lines 64-75): case-insensitive lookup. -/
def getBossByAlias (al : Str) (m : List (Str × Str)) : Option Str :=
  lookupA (lowerS al) m

/-- `calculate_spawn_time` (boss_config.py lines 95-114):
`bosses.get(boss_name, {})`, each respawn field defaulting to 0, then
`death_time + timedelta(hours, minutes, seconds)`; times in seconds. -/
def calculateSpawnTime (bossName : Str) (deathTime : Int) (bosses : Bosses) : Int :=
  let bd := (lookupA bossName bosses).getD {}
  deathTime + (3600 * bd.respawn_hours.getD 0 + 60 * bd.respawn_minutes.getD 0
    + bd.respawn_seconds.getD 0)

/-- The respawn duration of a catalog entry, in seconds:
`respawn_hours`/`respawn_minutes`/`respawn_seconds` combined (spec wording). -/
def respawnDuration (bossName : Str) (bosses : Bosses) : Int :=
  match lookupA bossName bosses with
  | some bd => 3600 * bd.respawn_hours.getD 0 + 60 * bd.respawn_minutes.getD 0
      + bd.respawn_seconds.getD 0
  | none => 0

/-- Whether a catalog entry maps a lower-cased key: its canonical name or
one of its aliases (the two kinds of strings `build_alias_map` folds). -/
def declaresB (k : Str) (e : Str × BossData) : Bool :=
  decide (lowerS e.1 = k ∨ k ∈ e.2.aliases.map lowerS)

/-- Canonical id of the last catalog entry declaring the lower-cased key
`k` (as its canonical name or one of its aliases); `none` if no entry
declares it.  Later entries take precedence, mirroring last-write-wins. -/
def lastDeclared (k : Str) : Bosses → Option Str
  | [] => none
  | e :: rest =>
    match lastDeclared k rest with
    | some n => some n
    | none => if declaresB k e then some e.1 else none

/-! ### Association-list lemmas -/

theorem lookupA_eraseA {α : Type} {k k' : Str} (m : List (Str × α)) (h : k ≠ k') :
    lookupA k (eraseA k' m) = lookupA k m := by
  induction m with
  | nil => rfl
  | cons e rest ih =>
    by_cases he : e.1 = k'
    · have h1 : eraseA k' (e :: rest) = eraseA k' rest := by
        simp [eraseA, List.filter_cons, he]
      have hne : e.1 ≠ k := fun hc => h (hc.symm.trans he)
      have h2 : lookupA k (e :: rest) = lookupA k rest := by
        simp [lookupA, hne]
      rw [h1, ih, h2]
    · have h1 : eraseA k' (e :: rest) = e :: eraseA k' rest := by
        simp [eraseA, List.filter_cons, he]
      by_cases hk : e.1 = k
      · rw [h1]; simp [lookupA, hk]
      · rw [h1]; simp [lookupA, hk, ih]

theorem lookupA_insertA {α : Type} (k k' : Str) (v : α) (m : List (Str × α)) :
    lookupA k (insertA k' v m) = if k = k' then some v else lookupA k m := by
  by_cases h : k = k'
  · simp [insertA, lookupA, h]
  · have h' : k' ≠ k := fun hc => h hc.symm
    rw [if_neg h]
    show lookupA k ((k', v) :: eraseA k' m) = lookupA k m
    simp [lookupA, h', lookupA_eraseA m h]

theorem lookupA_alias_fold (as : List Str) (n : Str) (m : List (Str × Str)) (k : Str) :
    lookupA k (as.foldl (fun m2 al => insertA (lowerS al) n m2) m)
      = if k ∈ as.map lowerS then some n else lookupA k m := by
  induction as generalizing m with
  | nil => simp
  | cons a rest ih =>
    simp only [List.foldl, ih, lookupA_insertA, List.map_cons, List.mem_cons]
    by_cases hrest : k ∈ rest.map lowerS
    · simp [hrest]
    · by_cases ha : k = lowerS a
      · simp [hrest, ha]
      · simp [hrest, ha]

theorem lookupA_stepB (m : List (Str × Str)) (e : Str × BossData) (k : Str) :
    lookupA k (stepB m e) = if declaresB k e then some e.1 else lookupA k m := by
  simp only [stepB, lookupA_alias_fold, lookupA_insertA, declaresB, decide_eq_true_eq]
  by_cases h1 : k ∈ e.2.aliases.map lowerS
  · simp [h1]
  · by_cases h2 : k = lowerS e.1
    · simp [h1, h2]
    · have h3 : ¬ (lowerS e.1 = k ∨ k ∈ e.2.aliases.map lowerS) := by
        rintro (hc | hc)
        · exact h2 hc.symm
        · exact h1 hc
      have h2' : ¬ lowerS e.1 = k := fun hc => h2 hc.symm
      simp [h1, h2, h2', h3]

theorem lookupA_buildAliasMap_fold (bs : Bosses) (m : List (Str × Str)) (k : Str) :
    lookupA k (bs.foldl stepB m)
      = match lastDeclared k bs with
        | some n => some n
        | none => lookupA k m := by
  induction bs generalizing m with
  | nil => simp [lastDeclared]
  | cons e rest ih =>
    simp only [List.foldl, ih, lastDeclared, lookupA_stepB]
    cases hl : lastDeclared k rest with
    | some n => simp
    | none =>
      cases hd : declaresB k e with
      | true => simp [hd]
      | false => simp [hd]

/-- C8 counterexample: a catalog entry whose `display_name` is not also an
alias does not resolve through the alias map, because `build_alias_map`
folds only the canonical id and the aliases. -/
theorem c8_display_name_not_resolvable :
    getBossByAlias (str "Viking")
        (buildAliasMap [(str "wdk", { display_name := some (str "Viking") })]) = none
      ∧ (({ display_name := some (str "Viking") } : BossData)).display_name
          = some (str "Viking") := by
  exact ⟨rfl, rfl⟩

/-- C8 (amended): the alias map folds each entry's canonical id and aliases
(lower-cased, display_name is NOT folded), later entries overwriting earlier
ones on colliding keys, so a lookup resolves to the last entity declaring
the lower-cased key. -/
theorem c8_alias_map_last_write_wins (bosses : Bosses) (a : Str) :
    getBossByAlias a (buildAliasMap bosses) = lastDeclared (lowerS a) bosses := by
  have h := lookupA_buildAliasMap_fold bosses [] (lowerS a)
  simp only [getBossByAlias, buildAliasMap] at *
  rw [h]
  cases lastDeclared (lowerS a) bosses <;> simp [lookupA]

/-- C10: a boss missing from the catalog, or present with no respawn
fields, gets respawn duration 0: the spawn time equals the death time. -/
theorem c10_missing_boss_spawn_equals_death :
    ∀ (bossName : Str) (deathTime : Int) (bosses : Bosses),
      (lookupA bossName bosses = none ∨
        ∃ bd, lookupA bossName bosses = some bd ∧ bd.respawn_hours = none ∧
          bd.respawn_minutes = none ∧ bd.respawn_seconds = none) →
      calculateSpawnTime bossName deathTime bosses = deathTime := by
  rintro b d bs (h | ⟨bd, h, h1, h2, h3⟩)
  · simp [calculateSpawnTime, h]
  · simp [calculateSpawnTime, h, h1, h2, h3]

theorem c10_missing_boss_witness : calculateSpawnTime (str "zzz") 5 [] = 5 :=
  c10_missing_boss_spawn_equals_death (str "zzz") 5 [] (Or.inl rfl)

/-! ## Reminder scheduler (`utils/scheduler.py`) -/

/-- Decimal rendering of an integer, Python `str(int)`. -/
def intToStr (i : Int) : Str :=
  if i < 0 then '-' :: Nat.toDigits 10 i.natAbs else Nat.toDigits 10 i.toNat

/-- One scheduled one-shot reminder job (the `add_job` call with `"date"`
trigger, scheduler.py lines 73-80): id plus the callback args. -/
structure Job where
  id : Str
  boss : Option Str
  spawnTime : Int
  umo : Option Str
  minutes : Int
  runDate : Int
deriving DecidableEq, Repr

/-- The job id `f"{timer_id}_remind_{minutes}min"` (scheduler.py line 71). -/
def mkJobId (timerId : Str) (minutes : Int) : Str :=
  timerId ++ str "_remind_" ++ intToStr minutes ++ str "min"

/-- The job armed for one lead interval: fires at `spawn_time - minutes`. -/
def mkJob (timerId : Str) (boss : Option Str) (spawn : Int) (umo : Option Str)
    (m : Int) : Job :=
  { id := mkJobId timerId m, boss := boss, spawnTime := spawn, umo := umo,
    minutes := m, runDate := spawn - m * 60 }

/-- `add_job(..., replace_existing=True)`: a job with the same id is replaced. -/
def addReplace (sched : List Job) (j : Job) : List Job :=
  sched.filter (fun j2 => decide (j2.id ≠ j.id)) ++ [j]

/-- Loop body of `schedule_reminders` (scheduler.py lines 62-84): skip a
lead whose remind time has passed, else arm the job and count it. -/
def srStep (timerId : Str) (boss : Option Str) (spawn : Int) (umo : Option Str)
    (now : Int) (acc : List Job × Nat) (m : Int) : List Job × Nat :=
  if spawn - m * 60 ≤ now then acc
  else (addReplace acc.1 (mkJob timerId boss spawn umo m), acc.2 + 1)

/-- `schedule_reminders` (scheduler.py lines 33-86): returns the scheduler
state and the number of reminders scheduled. -/
def scheduleReminders (sched : List Job) (timerId : Str) (boss : Option Str)
    (spawn : Int) (umo : Option Str) (intervals : List Int) (now : Int) :
    List Job × Nat :=
  intervals.foldl (srStep timerId boss spawn umo now) (sched, 0)

/-- `cancel_reminder_jobs` (scheduler.py lines 89-111): removes every job
whose id starts with `f"{timer_id}_remind_"`, returning the count removed. -/
def cancelReminderJobs (sched : List Job) (timerId : Str) : List Job × Nat :=
  let kept := sched.filter (fun j => ! ((timerId ++ str "_remind_").isPrefixOf j.id))
  (kept, sched.length - kept.length)

/-- One persisted timer record as read back from `timers.json`
(`timer_storage.load_timers`): the fields `_restore_timers` and
`cleanup_expired_timers` consume.  `spawn_time` is the raw ISO string. -/
structure RawTimer where
  boss : Option Str := none
  spawn_time : Option Str := none
  umo : Option Str := none
deriving DecidableEq, Repr

/-- Removal test of `cleanup_expired_timers` (scheduler.py lines 131-143):
missing or empty `spawn_time`, an unparseable one, or one strictly before
`now`.  `iso` stands for `datetime.fromisoformat`. -/
def expiredOrBad (iso : Str → Option Int) (now : Int) (e : Str × RawTimer) : Bool :=
  match e.2.spawn_time with
  | none => true
  | some s =>
    if s = [] then true
    else
      match iso s with
      | none => true
      | some t => decide (t < now)

/-- `cleanup_expired_timers` (scheduler.py lines 114-149): collects the ids
to remove, deletes them, and returns the count; for a dict this is the
partition below. -/
def cleanupExpiredTimers (iso : Str → Option Int) (now : Int)
    (timers : List (Str × RawTimer)) : List (Str × RawTimer) × Nat :=
  (timers.filter (fun e => ! expiredOrBad iso now e),
   (timers.filter (fun e => expiredOrBad iso now e)).length)

/-- Loop body of `_restore_timers` (main.py lines 85-103): skip entries with
falsy `spawn_time`, skip parse failures (the `except` branch), otherwise
schedule reminders and count the timer when at least one job was armed. -/
def restoreStep (iso : Str → Option Int) (now : Int) (intervals : List Int)
    (acc : List Job × Nat) (e : Str × RawTimer) : List Job × Nat :=
  match e.2.spawn_time with
  | none => acc
  | some s =>
    if s = [] then acc
    else
      match iso s with
      | none => acc
      | some t =>
        let r := scheduleReminders acc.1 e.1 e.2.boss t e.2.umo intervals now
        (r.1, if r.2 > 0 then acc.2 + 1 else acc.2)

/-- Result of `_restore_timers`: pruned store, scheduler jobs, whether the
store was persisted after pruning, and the restored-timer count. -/
structure RestoreResult where
  timers : List (Str × RawTimer)
  sched : List Job
  saved : Bool
  restored : Nat
deriving Repr

/-- `_restore_timers` (main.py lines 76-106): prune expired timers (saving
the store when any were removed), then schedule reminders for the rest,
starting from the freshly started empty scheduler. -/
def restoreTimers (iso : Str → Option Int) (now : Int) (intervals : List Int)
    (store : List (Str × RawTimer)) : RestoreResult :=
  let c := cleanupExpiredTimers iso now store
  let l := c.1.foldl (restoreStep iso now intervals) ([], 0)
  { timers := c.1, sched := l.1, saved := decide (c.2 > 0), restored := l.2 }

/-! ### Scheduler lemmas -/

theorem mem_addReplace {sched : List Job} {j jb : Job} (h : j ∈ addReplace sched jb) :
    j ∈ sched ∨ j = jb := by
  rcases List.mem_append.1 h with h1 | h1
  · exact Or.inl (List.mem_of_mem_filter h1)
  · exact Or.inr (List.mem_singleton.1 h1)

theorem mem_scheduleReminders_fold (tid : Str) (b : Option Str) (sp : Int)
    (um : Option Str) (now : Int) :
    ∀ (ints : List Int) (acc : List Job × Nat) (j : Job),
      j ∈ (ints.foldl (srStep tid b sp um now) acc).1 →
      j ∈ acc.1 ∨ ∃ m ∈ ints, now < sp - m * 60 ∧ j = mkJob tid b sp um m := by
  intro ints
  induction ints with
  | nil => intro acc j h; exact Or.inl h
  | cons m rest ih =>
    intro acc j h
    simp only [List.foldl_cons] at h
    rcases ih (srStep tid b sp um now acc m) j h with h1 | ⟨m', hm', hlt, hj⟩
    · by_cases hskip : sp - m * 60 ≤ now
      · rw [srStep, if_pos hskip] at h1
        exact Or.inl h1
      · rw [srStep, if_neg hskip] at h1
        rcases mem_addReplace h1 with h2 | h2
        · exact Or.inl h2
        · exact Or.inr ⟨m, List.mem_cons_self _ _, by omega, h2⟩
    · exact Or.inr ⟨m', List.mem_cons_of_mem _ hm', hlt, hj⟩

theorem count_scheduleReminders_fold (tid : Str) (b : Option Str) (sp : Int)
    (um : Option Str) (now : Int) :
    ∀ (ints : List Int) (acc : List Job × Nat),
      (ints.foldl (srStep tid b sp um now) acc).2
        = acc.2 + (ints.filter (fun m => decide (now < sp - m * 60))).length := by
  intro ints
  induction ints with
  | nil => intro acc; simp
  | cons m rest ih =>
    intro acc
    by_cases hskip : sp - m * 60 ≤ now
    · have hc : (decide (now < sp - m * 60)) = false := by
        simp only [decide_eq_false_iff_not, not_lt]
        exact hskip
      simp only [List.foldl_cons, srStep, if_pos hskip, List.filter_cons, hc]
      rw [ih]
      simp
    · have hc : (decide (now < sp - m * 60)) = true := by
        simp only [decide_eq_true_eq]
        omega
      simp only [List.foldl_cons, srStep, if_neg hskip, List.filter_cons, hc]
      rw [ih]
      simp only [if_true, List.length_cons]
      omega

/-- A job is accounted for by one of the kept timers: it was armed for a
lead interval of that timer whose remind time was still in the future. -/
def jobFromKept (iso : Str → Option Int) (now : Int) (intervals : List Int)
    (kept : List (Str × RawTimer)) (j : Job) : Prop :=
  ∃ e ∈ kept, ∃ s t m, e.2.spawn_time = some s ∧ iso s = some t ∧ m ∈ intervals ∧
    j = mkJob e.1 e.2.boss t e.2.umo m ∧ now < t - m * 60

theorem restore_fold_jobs (iso : Str → Option Int) (now : Int) (intervals : List Int)
    (kept : List (Str × RawTimer)) :
    ∀ (l : List (Str × RawTimer)), (∀ e ∈ l, e ∈ kept) →
      ∀ (acc : List Job × Nat), (∀ j ∈ acc.1, jobFromKept iso now intervals kept j) →
      ∀ j ∈ (l.foldl (restoreStep iso now intervals) acc).1,
        jobFromKept iso now intervals kept j := by
  intro l
  induction l with
  | nil => intro _ acc hacc j hj; exact hacc j hj
  | cons e rest ih =>
    intro hl acc hacc j hj
    simp only [List.foldl_cons] at hj
    refine ih (fun e' he' => hl e' (List.mem_cons_of_mem _ he')) _ ?_ j hj
    intro j' hj'
    rcases hspawn : e.2.spawn_time with _ | s
    · simp only [restoreStep, hspawn] at hj'
      exact hacc j' hj'
    · by_cases hempty : s = []
      · simp only [restoreStep, hspawn, if_pos hempty] at hj'
        exact hacc j' hj'
      · rcases hiso : iso s with _ | t
        · simp only [restoreStep, hspawn, if_neg hempty, hiso] at hj'
          exact hacc j' hj'
        · simp only [restoreStep, hspawn, if_neg hempty, hiso, scheduleReminders] at hj'
          rcases mem_scheduleReminders_fold e.1 e.2.boss t e.2.umo now intervals
              (acc.1, 0) j' hj' with h1 | ⟨m, hm, hlt, hjeq⟩
          · exact hacc j' h1
          · exact ⟨e, hl e (List.mem_cons_self _ _), s, t, m, hspawn, hiso, hm, hjeq, hlt⟩

theorem filter_length_partition {α : Type} (p : α → Bool) (l : List α) :
    (l.filter p).length + (l.filter (fun a => ! p a)).length = l.length := by
  induction l with
  | nil => rfl
  | cons a rest ih =>
    by_cases h : p a = true
    · rw [List.filter_cons, List.filter_cons, if_pos h, if_neg (by simp [h])]
      simp only [List.length_cons]
      omega
    · have h' : p a = false := by simpa using h
      rw [List.filter_cons, List.filter_cons, if_neg (by simp [h']), if_pos (by simp [h'])]
      simp only [List.length_cons]
      omega

/-- C9: after `cleanup_expired_timers`, every remaining entry has a present,
parseable `spawn_time`; entries with a missing or unparseable one are
removed just like strictly expired ones; the return value counts all
removals together. -/
theorem c9_cleanup_keeps_only_parseable :
    ∀ (iso : Str → Option Int) (now : Int) (timers : List (Str × RawTimer)),
      (∀ e ∈ (cleanupExpiredTimers iso now timers).1,
          ∃ s t, e.2.spawn_time = some s ∧ iso s = some t)
      ∧ (∀ e ∈ timers,
          (e.2.spawn_time = none
            ∨ (∃ s, e.2.spawn_time = some s ∧ iso s = none)
            ∨ (∃ s t, e.2.spawn_time = some s ∧ iso s = some t ∧ t < now)) →
          e ∉ (cleanupExpiredTimers iso now timers).1)
      ∧ (cleanupExpiredTimers iso now timers).2
          + (cleanupExpiredTimers iso now timers).1.length = timers.length := by
  intro iso now timers
  refine ⟨?_, ?_, ?_⟩
  · intro e he
    have hbad : expiredOrBad iso now e = false := by
      have := (List.mem_filter.1 he).2
      simpa using this
    rcases hspawn : e.2.spawn_time with _ | s
    · simp [expiredOrBad, hspawn] at hbad
    · by_cases hempty : s = []
      · simp [expiredOrBad, hspawn, hempty] at hbad
      · rcases hiso : iso s with _ | t
        · simp [expiredOrBad, hspawn, if_neg hempty, hiso] at hbad
        · exact ⟨s, t, rfl, hiso⟩
  · intro e _ hreason hmem
    have hbad : expiredOrBad iso now e = false := by
      have := (List.mem_filter.1 hmem).2
      simpa using this
    rcases hreason with h | ⟨s, hs, hiso⟩ | ⟨s, t, hs, hiso, hlt⟩
    · simp [expiredOrBad, h] at hbad
    · by_cases hempty : s = []
      · simp [expiredOrBad, hs, hempty] at hbad
      · simp [expiredOrBad, hs, if_neg hempty, hiso] at hbad
    · by_cases hempty : s = []
      · simp [expiredOrBad, hs, hempty] at hbad
      · simp only [expiredOrBad, hs, if_neg hempty, hiso,
          decide_eq_false_iff_not] at hbad
        exact hbad hlt
  · exact filter_length_partition _ timers

theorem c9_cleanup_witness :
    (str "k", ({ spawn_time := none } : RawTimer))
      ∉ (cleanupExpiredTimers (fun _ => none) 0
          [(str "k", ({ spawn_time := none } : RawTimer))]).1 :=
  (c9_cleanup_keeps_only_parseable (fun _ => none) 0
      [(str "k", { spawn_time := none })]).2.1 _ (by simp) (Or.inl rfl)

/-- C2 counterexample: a stored timer whose `spawn_time` equals `now`
(so `spawn_time ≤ now`, expired per the claim) is NOT deleted by restore:
`cleanup_expired_timers` prunes only `spawn_time < now`, strictly. -/
theorem c2_boundary_timer_not_deleted :
    (restoreTimers (fun s => if s = str "T" then some 100 else none) 100 [3]
        [(str "g_b", ({ spawn_time := some (str "T") } : RawTimer))]).timers
      = [(str "g_b", ({ spawn_time := some (str "T") } : RawTimer))]
    ∧ (fun (s : Str) => if s = str "T" then some (100 : Int) else none) (str "T") = some 100
    ∧ (100 : Int) ≤ 100 := by
  refine ⟨by decide, by decide, by decide⟩

/-- C2 (amended): restore deletes exactly the entries whose `spawn_time` is
missing, unparseable, or STRICTLY before `now` (persisting the store when
any were pruned); every scheduled job belongs to a kept timer and a lead
with remind time strictly in the future; and `schedule_reminders` schedules
exactly `count(lead ∈ intervals : spawn_time - lead > now)` jobs. -/
theorem c2_restore_prunes_and_schedules :
    ∀ (iso : Str → Option Int) (now : Int) (intervals : List Int)
      (store : List (Str × RawTimer)),
      (∀ e ∈ store, (e ∈ (restoreTimers iso now intervals store).timers ↔
          ∃ s t, e.2.spawn_time = some s ∧ s ≠ [] ∧ iso s = some t ∧ now ≤ t))
      ∧ (∀ e ∈ (restoreTimers iso now intervals store).timers, e ∈ store)
      ∧ ((∃ e ∈ store, e ∉ (restoreTimers iso now intervals store).timers) →
          (restoreTimers iso now intervals store).saved = true)
      ∧ (∀ j ∈ (restoreTimers iso now intervals store).sched,
          jobFromKept iso now intervals (restoreTimers iso now intervals store).timers j)
      ∧ (∀ (sched : List Job) (tid : Str) (b : Option Str) (sp : Int) (um : Option Str),
          (scheduleReminders sched tid b sp um intervals now).2
            = (intervals.filter (fun m => decide (now < sp - m * 60))).length) := by
  intro iso now intervals store
  have htimers : (restoreTimers iso now intervals store).timers
      = store.filter (fun e => ! expiredOrBad iso now e) := rfl
  have hsaved : (restoreTimers iso now intervals store).saved
      = decide (0 < (store.filter (fun e => expiredOrBad iso now e)).length) := rfl
  have hsched : (restoreTimers iso now intervals store).sched
      = ((store.filter (fun e => ! expiredOrBad iso now e)).foldl
          (restoreStep iso now intervals) ([], 0)).1 := rfl
  have hkeep : ∀ e : Str × RawTimer, (expiredOrBad iso now e = false ↔
      ∃ s t, e.2.spawn_time = some s ∧ s ≠ [] ∧ iso s = some t ∧ now ≤ t) := by
    intro e
    rcases hspawn : e.2.spawn_time with _ | s
    · simp [expiredOrBad, hspawn]
    · by_cases hempty : s = []
      · subst hempty
        simp [expiredOrBad, hspawn]
      · rcases hiso : iso s with _ | t
        · simp [expiredOrBad, hspawn, if_neg hempty, hiso]
        · simp only [expiredOrBad, hspawn, if_neg hempty, hiso,
            decide_eq_false_iff_not, not_lt, Option.some_inj]
          constructor
          · intro hle
            exact ⟨s, t, rfl, hempty, hiso, hle⟩
          · rintro ⟨s', t', hs', _, hiso', hle⟩
            subst hs'
            rw [hiso] at hiso'
            cases hiso'
            exact hle
  refine ⟨?_, ?_, ?_, ?_, ?_⟩
  · intro e he
    rw [htimers]
    constructor
    · intro hkept
      have hfalse : expiredOrBad iso now e = false := by
        have := (List.mem_filter.1 hkept).2
        simpa using this
      exact (hkeep e).1 hfalse
    · intro hex
      exact List.mem_filter.2 ⟨he, by simp [(hkeep e).2 hex]⟩
  · intro e he
    rw [htimers] at he
    exact List.mem_of_mem_filter he
  · rintro ⟨e, hmem, hnotkept⟩
    rw [htimers] at hnotkept
    rw [hsaved]
    have hbad : expiredOrBad iso now e = true := by
      by_contra hc
      have hfalse : expiredOrBad iso now e = false := by
        simpa using hc
      exact hnotkept (List.mem_filter.2 ⟨hmem, by simp [hfalse]⟩)
    have hin : e ∈ store.filter (fun e => expiredOrBad iso now e) :=
      List.mem_filter.2 ⟨hmem, hbad⟩
    have hlen := List.length_pos.2 (List.ne_nil_of_mem hin)
    simpa using hlen
  · intro j hj
    rw [hsched] at hj
    rw [htimers]
    exact restore_fold_jobs iso now intervals _ _ (fun e he => he) ([], 0)
      (by intro j' hj'; exact absurd hj' (List.not_mem_nil _)) j hj
  · intro sched tid b sp um
    simpa [scheduleReminders] using
      count_scheduleReminders_fold tid b sp um now intervals (sched, 0)

theorem c2_restore_witness :
    ((str "g_b", ({ spawn_time := some (str "T") } : RawTimer))
        ∈ (restoreTimers (fun s => if s = str "T" then some 200 else none) 100 [3]
            [(str "g_b", ({ spawn_time := some (str "T") } : RawTimer))]).timers)
    ∧ (scheduleReminders [] (str "g_b") none 200 none [3] 100).2
        = ([3].filter (fun m => decide ((100 : Int) < 200 - m * 60))).length := by
  have h := c2_restore_prunes_and_schedules
    (fun s => if s = str "T" then some 200 else none) 100 [3]
    [(str "g_b", ({ spawn_time := some (str "T") } : RawTimer))]
  refine ⟨?_, h.2.2.2.2 [] (str "g_b") none 200 none⟩
  exact (h.1 _ (List.mem_singleton.2 rfl)).2
    ⟨str "T", 200, rfl, by decide, by decide, by decide⟩

/-! ## Timer lifecycle (`main.py` `handle_boss_death` / `cmd_set_boss_timer`) -/

/-- Owning scope of a timer: a chat group or a private user. -/
inductive Scope where
  | group (groupId : Str)
  | priv (userId : Str)
deriving DecidableEq, Repr

/-- One live timer record as built by the handlers (main.py lines 234-242
and 496-502). -/
structure TimerRec where
  boss : Str
  death_time : Option Int := none
  spawn_time : Int
  umo : Str
  group_id : Option Str := none
  user_id : Option Str := none
deriving DecidableEq, Repr

/-- The in-memory plugin state the handlers mutate: the timers dict and the
scheduler's pending jobs. -/
structure SysState where
  timers : List (Str × TimerRec) := []
  sched : List Job := []
deriving DecidableEq, Repr

/-- Timer id derivation (main.py lines 219-224 and 483-488):
`f"{group_id}_{boss_name}"` for a group, `f"private_{user_id}_{boss_name}"`
for a private user; no timestamp, so the same (scope, boss) overwrites. -/
def deriveTimerId : Scope → Str → Str
  | Scope.group g, b => g ++ '_' :: b
  | Scope.priv u, b => str "private_" ++ u ++ '_' :: b

/-- The `group_id` field stored for a scope. -/
def scopeGroupId : Scope → Option Str
  | Scope.group g => some g
  | Scope.priv _ => none

/-- The `user_id` field stored for a scope. -/
def scopeUserId : Scope → Option Str
  | Scope.group _ => none
  | Scope.priv u => some u

/-- Post-guard body of `handle_boss_death` (main.py lines 215-256): compute
spawn time, derive the timer id, run the job-removal loop (which filters on
the prefix `f"reminder_{timer_id}_"`, lines 227-231), overwrite the store
entry, and schedule reminders. -/
def recordDeathCore (bosses : Bosses) (intervals : List Int) (now : Int)
    (st : SysState) (sc : Scope) (bossName : Str) (deathTime : Int) (umo : Str) :
    SysState :=
  let spawn := calculateSpawnTime bossName deathTime bosses
  let tid := deriveTimerId sc bossName
  let sched1 :=
    if (lookupA tid st.timers).isSome then
      st.sched.filter (fun j => ! ((str "reminder_" ++ tid ++ ['_']).isPrefixOf j.id))
    else st.sched
  let td : TimerRec := { boss := bossName,
                         death_time := some deathTime,
                         spawn_time := spawn,
                         umo := umo,
                         group_id := scopeGroupId sc,
                         user_id := scopeUserId sc }
  let timers1 := insertA tid td st.timers
  let sched2 := (scheduleReminders sched1 tid (some bossName) spawn (some umo)
    intervals now).1
  { timers := timers1, sched := sched2 }

/-- Destination stored by `cmd_set_boss_timer` (main.py lines 484-489):
`f"qq_group_{group_id}"` for a group, the event origin for a private user. -/
def manualUmo (sc : Scope) (umoEvent : Str) : Str :=
  match sc with
  | Scope.group g => str "qq_group_" ++ g
  | Scope.priv _ => umoEvent

/-- Post-guard body of `cmd_set_boss_timer` (main.py lines 481-518): derive
the timer id and destination, cancel the old timer's jobs and delete it if
present (via `cancel_reminder_jobs`, the correct prefix), store the new
timer without a death time, and schedule reminders. -/
def addManualCore (intervals : List Int) (now : Int) (st : SysState) (sc : Scope)
    (bossName : Str) (spawn : Int) (umoEvent : Str) : SysState :=
  let tid := deriveTimerId sc bossName
  let umo := manualUmo sc umoEvent
  let hadOld := (lookupA tid st.timers).isSome
  let sched1 := if hadOld then (cancelReminderJobs st.sched tid).1 else st.sched
  let timers0 := if hadOld then eraseA tid st.timers else st.timers
  let td : TimerRec := { boss := bossName,
                         death_time := none,
                         spawn_time := spawn,
                         umo := umo,
                         group_id := scopeGroupId sc,
                         user_id := scopeUserId sc }
  let timers1 := insertA tid td timers0
  let sched2 := (scheduleReminders sched1 tid (some bossName) spawn (some umo)
    intervals now).1
  { timers := timers1, sched := sched2 }

/-- One successful mutating call.  Calls rejected by parsing or the
permission gate return before touching the store, so a sequence of calls is
modelled by its successful ones. -/
inductive Op where
  | death (bosses : Bosses) (intervals : List Int) (now : Int) (sc : Scope)
      (bossName : Str) (deathTime : Int) (umo : Str)
  | manual (intervals : List Int) (now : Int) (sc : Scope) (bossName : Str)
      (spawn : Int) (umo : Str)

/-- Apply one call to the state. -/
def applyOp (st : SysState) : Op → SysState
  | Op.death bosses intervals now sc b dt umo =>
      recordDeathCore bosses intervals now st sc b dt umo
  | Op.manual intervals now sc b sp umo =>
      addManualCore intervals now st sc b sp umo

/-- Run a sequence of calls from the empty state. -/
def runOps (ops : List Op) : SysState := ops.foldl applyOp {}

/-- The scope owning a stored record, read back from its
`group_id`/`user_id` fields. -/
def ownerOf (td : TimerRec) : Option Scope :=
  match td.group_id with
  | some g => some (Scope.group g)
  | none => td.user_id.map Scope.priv

/-- Keys of an association list are pairwise distinct (dict semantics). -/
def keysNodup {α : Type} (m : List (Str × α)) : Prop := (m.map Prod.fst).Nodup

/-- Every stored entry sits under the timer id derived from its own scope
and boss. -/
def timerWellKeyed (e : Str × TimerRec) : Prop :=
  ∃ sc, ownerOf e.2 = some sc ∧ e.1 = deriveTimerId sc e.2.boss

/-! ### Store-shape lemmas -/

theorem map_fst_eraseA {α : Type} (k : Str) (m : List (Str × α)) :
    (eraseA k m).map Prod.fst = (m.map Prod.fst).filter (fun x => decide (x ≠ k)) := by
  induction m with
  | nil => rfl
  | cons e rest ih =>
    by_cases h : e.1 = k
    · simp [eraseA, List.filter_cons, h] at *
      exact ih
    · simp [eraseA, List.filter_cons, h] at *
      exact ih

theorem keysNodup_eraseA {α : Type} (k : Str) (m : List (Str × α))
    (h : keysNodup m) : keysNodup (eraseA k m) := by
  rw [keysNodup, map_fst_eraseA]
  exact List.Nodup.filter _ h

theorem keysNodup_insertA {α : Type} (k : Str) (v : α) (m : List (Str × α))
    (h : keysNodup m) : keysNodup (insertA k v m) := by
  rw [keysNodup, insertA, List.map_cons, map_fst_eraseA]
  refine List.Nodup.cons ?_ (List.Nodup.filter _ h)
  intro hmem
  have := List.of_mem_filter hmem
  simp at this

theorem mem_insertA {α : Type} {e : Str × α} {k : Str} {v : α} {m : List (Str × α)}
    (h : e ∈ insertA k v m) : e = (k, v) ∨ e ∈ m := by
  rcases List.mem_cons.1 h with h1 | h1
  · exact Or.inl h1
  · exact Or.inr (List.mem_of_mem_filter h1)

theorem mem_eraseA {α : Type} {e : Str × α} {k : Str} {m : List (Str × α)}
    (h : e ∈ eraseA k m) : e ∈ m := List.mem_of_mem_filter h

/-- The store invariant maintained by every successful call. -/
def storeInv (st : SysState) : Prop :=
  keysNodup st.timers ∧ ∀ e ∈ st.timers, timerWellKeyed e

theorem ownerOf_scoped (sc : Scope) (td : TimerRec)
    (hg : td.group_id = scopeGroupId sc) (hu : td.user_id = scopeUserId sc) :
    ownerOf td = some sc := by
  cases sc with
  | group g => simp [ownerOf, hg, scopeGroupId]
  | priv u => simp [ownerOf, hg, hu, scopeGroupId, scopeUserId]

theorem storeInv_applyOp (st : SysState) (op : Op) (h : storeInv st) :
    storeInv (applyOp st op) := by
  have hins : ∀ (tid : Str) (td : TimerRec) (m : List (Str × TimerRec)),
      keysNodup m → (∀ e ∈ m, timerWellKeyed e) → timerWellKeyed (tid, td) →
      keysNodup (insertA tid td m) ∧ ∀ e ∈ insertA tid td m, timerWellKeyed e := by
    intro tid td m hnd hwk hnew
    refine ⟨keysNodup_insertA tid td m hnd, ?_⟩
    intro e he
    rcases mem_insertA he with rfl | he'
    · exact hnew
    · exact hwk e he'
  cases op with
  | death bosses intervals now sc b dt umo =>
    rcases h with ⟨hnd, hwk⟩
    exact hins (deriveTimerId sc b)
      { boss := b, death_time := some dt,
        spawn_time := calculateSpawnTime b dt bosses, umo := umo,
        group_id := scopeGroupId sc, user_id := scopeUserId sc }
      st.timers hnd hwk ⟨sc, ownerOf_scoped sc _ rfl rfl, rfl⟩
  | manual intervals now sc b sp umo =>
    rcases h with ⟨hnd, hwk⟩
    have hnd0 : keysNodup (if (lookupA (deriveTimerId sc b) st.timers).isSome
        then eraseA (deriveTimerId sc b) st.timers else st.timers) := by
      by_cases hold : (lookupA (deriveTimerId sc b) st.timers).isSome
      · rw [if_pos hold]; exact keysNodup_eraseA _ _ hnd
      · rw [if_neg hold]; exact hnd
    have hwk0 : ∀ e ∈ (if (lookupA (deriveTimerId sc b) st.timers).isSome
        then eraseA (deriveTimerId sc b) st.timers else st.timers), timerWellKeyed e := by
      by_cases hold : (lookupA (deriveTimerId sc b) st.timers).isSome
      · rw [if_pos hold]; exact fun e he => hwk e (mem_eraseA he)
      · rw [if_neg hold]; exact hwk
    exact hins (deriveTimerId sc b)
      { boss := b, death_time := none, spawn_time := sp,
        umo := manualUmo sc umo,
        group_id := scopeGroupId sc, user_id := scopeUserId sc }
      _ hnd0 hwk0 ⟨sc, ownerOf_scoped sc _ rfl rfl, rfl⟩

theorem storeInv_foldl (ops : List Op) :
    ∀ st : SysState, storeInv st → storeInv (ops.foldl applyOp st) := by
  induction ops with
  | nil => intro st h; exact h
  | cons op rest ih =>
    intro st h
    rw [List.foldl_cons]
    exact ih _ (storeInv_applyOp st op h)

theorem storeInv_runOps (ops : List Op) : storeInv (runOps ops) := by
  have hbase : storeInv {} :=
    ⟨List.nodup_nil, fun e he => absurd he (List.not_mem_nil e)⟩
  exact storeInv_foldl ops {} hbase

theorem filter_keyed_length_le_one {α : Type} (p : Str × α → Bool) (k : Str) :
    ∀ (l : List (Str × α)), keysNodup l → (∀ e ∈ l, p e = true → e.1 = k) →
      (l.filter p).length ≤ 1 := by
  intro l
  induction l with
  | nil => intro _ _; simp
  | cons e rest ih =>
    intro hnd hkey
    have hnd' : keysNodup rest := (List.nodup_cons.1 hnd).2
    have hout : e.1 ∉ rest.map Prod.fst := (List.nodup_cons.1 hnd).1
    by_cases hp : p e = true
    · have hk := hkey e (List.mem_cons_self _ _) hp
      have hrest : rest.filter p = [] := by
        rcases hfe : rest.filter p with _ | ⟨e', tail⟩
        · rfl
        · have he' : e' ∈ rest.filter p := by rw [hfe]; exact List.mem_cons_self _ _
          have hmem := List.mem_of_mem_filter he'
          have hpe' := List.of_mem_filter he'
          have hk' := hkey e' (List.mem_cons_of_mem _ hmem) hpe'
          have : e.1 ∈ rest.map Prod.fst := by
            rw [hk, ← hk']
            exact List.mem_map_of_mem Prod.fst hmem
          exact absurd this hout
      rw [List.filter_cons, if_pos hp, hrest]
      simp
    · have hp' : p e = false := by simpa using hp
      rw [List.filter_cons, if_neg (by simp [hp'])]
      exact ih hnd' (fun e' he' => hkey e' (List.mem_cons_of_mem _ he'))

/-- C1: after any sequence of successful `record_death` / `add_manual`
calls, at most one stored timer is owned by a given scope for a given boss:
the timer id is derived from (scope, boss) alone, so a new report
overwrites the dict entry of the previous one. -/
theorem c1_at_most_one_timer_per_scope_entity (ops : List Op) (sc : Scope) (b : Str) :
    ((runOps ops).timers.filter
        (fun e => decide (ownerOf e.2 = some sc ∧ e.2.boss = b))).length ≤ 1 := by
  rcases storeInv_runOps ops with ⟨hnd, hwk⟩
  refine filter_keyed_length_le_one _ (deriveTimerId sc b) _ hnd ?_
  intro e he hp
  rcases hwk e he with ⟨sc', howner, hkey⟩
  have hp' : ownerOf e.2 = some sc ∧ e.2.boss = b := of_decide_eq_true hp
  rw [howner] at hp'
  rcases hp' with ⟨hsc, hb⟩
  cases hsc
  rw [hkey, hb]

/-- Catalog used by the concrete lifecycle scenarios: `wdk` respawns after
8 hours. -/
def bossesWdk : Bosses := [(str "wdk", { respawn_hours := some 8 })]

/-- C4 (code bug witness): a death report that replaces an existing timer
leaves the prior timer's pending reminder job armed.  The removal loop in
`handle_boss_death` filters on the prefix `f"reminder_{timer_id}_"`, but
`schedule_reminders` creates job ids of the form
`f"{timer_id}_remind_{m}min"`, so nothing ever matches; when the new remind
time has already passed, `replace_existing` does not fire either, and the
stale job (here with the old spawn time 28800) outlives the replacement
(whose spawn time is 28600). -/
theorem c4_stale_job_survives_replacement :
    (lookupA (str "G_wdk")
        (recordDeathCore bossesWdk [3] 0 {} (Scope.group (str "G")) (str "wdk")
          0 (str "U")).timers).isSome = true
    ∧ (∃ j ∈ (recordDeathCore bossesWdk [3] 28500
          (recordDeathCore bossesWdk [3] 0 {} (Scope.group (str "G")) (str "wdk")
            0 (str "U"))
          (Scope.group (str "G")) (str "wdk") (-200) (str "U")).sched,
        j.id = mkJobId (str "G_wdk") 3 ∧ j.spawnTime = 28800 ∧ j.runDate = 28620)
    ∧ (∃ td, lookupA (str "G_wdk")
          (recordDeathCore bossesWdk [3] 28500
            (recordDeathCore bossesWdk [3] 0 {} (Scope.group (str "G")) (str "wdk")
              0 (str "U"))
            (Scope.group (str "G")) (str "wdk") (-200) (str "U")).timers = some td
        ∧ td.spawn_time = 28600) := by
  refine ⟨by decide, ?_, ?_⟩
  · decide
  · decide

/-- C5: a successful `record_death` for a resolvable entity stores a timer
whose spawn time is the death time plus the entity's configured respawn
duration. -/
theorem c5_spawn_is_death_plus_respawn (bosses : Bosses) (aliasName : Str)
    (intervals : List Int) (now : Int) (st : SysState) (sc : Scope) (b : Str)
    (deathTime : Int) (umo : Str)
    (_hres : getBossByAlias aliasName (buildAliasMap bosses) = some b) :
    ∃ td, lookupA (deriveTimerId sc b)
        (recordDeathCore bosses intervals now st sc b deathTime umo).timers = some td
      ∧ td.spawn_time = deathTime + respawnDuration b bosses
      ∧ td.death_time = some deathTime := by
  have hcalc : calculateSpawnTime b deathTime bosses
      = deathTime + respawnDuration b bosses := by
    rw [calculateSpawnTime, respawnDuration]
    cases h : lookupA b bosses with
    | none => simp [h]
    | some bd => simp [h]
  refine ⟨{ boss := b, death_time := some deathTime,
            spawn_time := calculateSpawnTime b deathTime bosses, umo := umo,
            group_id := scopeGroupId sc, user_id := scopeUserId sc },
    ?_, hcalc, rfl⟩
  show lookupA (deriveTimerId sc b)
      (insertA (deriveTimerId sc b) _ st.timers) = _
  rw [lookupA_insertA]
  simp

theorem c5_spawn_witness :
    ∃ td, lookupA (deriveTimerId (Scope.group (str "G")) (str "wdk"))
        (recordDeathCore bossesWdk [3] 0 {} (Scope.group (str "G")) (str "wdk")
          600 (str "U")).timers = some td
      ∧ td.spawn_time = 600 + respawnDuration (str "wdk") bossesWdk
      ∧ td.death_time = some 600 :=
  c5_spawn_is_death_plus_respawn bossesWdk (str "wdk") [3] 0 {}
    (Scope.group (str "G")) (str "wdk") 600 (str "U") (by decide)

/-! ## Permission gate (`utils/permission.py`) -/

/-- The configuration keys the permission gate reads (absent keys default
to empty lists, as `config.get(..., [])` does). -/
structure PConfig where
  whitelist_enabled : Bool := false
  whitelist_groups : List Str := []
  core_groups : List Str := []
  whitelist_groups_2 : List Str := []
  core_groups_2 : List Str := []
  whitelist_users : List Str := []
deriving DecidableEq, Repr

/-- `get_group_set` (permission.py lines 13-38): Set 1 is checked first. -/
def getGroupSet (groupId : Str) (cfg : PConfig) : Option Nat :=
  if groupId ∈ cfg.whitelist_groups ∨ groupId ∈ cfg.core_groups then some 1
  else if groupId ∈ cfg.whitelist_groups_2 ∨ groupId ∈ cfg.core_groups_2 then some 2
  else none

/-- `is_core_group` (permission.py lines 101-115). -/
def isCoreGroup (groupId : Str) (cfg : PConfig) : Bool :=
  decide (groupId ∈ cfg.core_groups ∨ groupId ∈ cfg.core_groups_2)

/-- The one field of `timer_data` that `should_show_timer` reads. -/
structure VisData where
  group_id : Option Str := none
deriving DecidableEq, Repr

/-- `timer_id.split("_", 1)[0]`: the segment before the first underscore. -/
def fallbackGroupId (timerId : Str) : Str :=
  timerId.takeWhile (fun c => decide (c ≠ '_'))

/-- The timer's owner group as `should_show_timer` computes it
(permission.py lines 181-186): the stored `group_id` if truthy, else the
fallback extracted from the timer id. -/
def timerGroupOf (timerId : Str) (td : VisData) : Str :=
  match td.group_id with
  | some g => if g = [] then fallbackGroupId timerId else g
  | none => fallbackGroupId timerId

/-- `should_show_timer` (permission.py lines 150-201). -/
def shouldShowTimer (timerId : Str) (td : VisData) (viewerGroupId : Option Str)
    (viewerUserId : Option Str) (cfg : PConfig) : Bool :=
  match viewerGroupId with
  | none =>
    (str "private_" ++ viewerUserId.getD (str "None") ++ ['_']).isPrefixOf timerId
  | some vg =>
    if (str "private_").isPrefixOf timerId then false
    else
      let tg := timerGroupOf timerId td
      let viewerSet := getGroupSet vg cfg
      let timerSet := if tg = [] then none else getGroupSet tg cfg
      if viewerSet ≠ timerSet then false
      else if isCoreGroup vg cfg then true
      else (vg ++ ['_']).isPrefixOf timerId

/-! ### Underscore-separated key lemmas -/

theorem sep_key_inj (zs : Str) :
    ∀ (ys xs : Str), '_' ∉ xs → '_' ∉ ys →
      (ys ++ ['_']) <+: (xs ++ '_' :: zs) → ys = xs := by
  intro ys
  induction ys with
  | nil =>
    intro xs hx _ h
    cases xs with
    | nil => rfl
    | cons x xs' =>
      simp only [List.nil_append, List.cons_append] at h
      rcases List.cons_prefix_cons.1 h with ⟨h1, _⟩
      exact absurd (by rw [h1]; exact List.mem_cons_self x xs') hx
  | cons y ys' ih =>
    intro xs hx hy h
    cases xs with
    | nil =>
      simp only [List.cons_append, List.nil_append] at h
      rcases List.cons_prefix_cons.1 h with ⟨h1, _⟩
      exact absurd (by rw [← h1]; exact List.mem_cons_self y ys') hy
    | cons x xs' =>
      simp only [List.cons_append] at h
      rcases List.cons_prefix_cons.1 h with ⟨h1, h2⟩
      have hx' : '_' ∉ xs' := fun hm => hx (List.mem_cons_of_mem _ hm)
      have hy' : '_' ∉ ys' := fun hm => hy (List.mem_cons_of_mem _ hm)
      rw [h1, ih xs' hx' hy' h2]

theorem sep_key_self (xs zs : Str) : (xs ++ ['_']) <+: (xs ++ '_' :: zs) :=
  ⟨zs, by simp⟩

theorem sep_key_iff {xs ys : Str} (zs : Str) (hx : '_' ∉ xs) (hy : '_' ∉ ys) :
    ((ys ++ ['_']) <+: (xs ++ '_' :: zs)) ↔ ys = xs := by
  constructor
  · exact sep_key_inj zs ys xs hx hy
  · rintro rfl
    exact sep_key_self _ zs

/-- C3 counterexample: visibility is decided by `timer_id.startswith`
prefix tests, so a non-core viewer group `g` (no sets configured) sees a
timer owned by the distinct group `g_x`: the timer id `g_x_b` starts with
`g_`. -/
theorem c3_prefix_collision :
    shouldShowTimer (str "g_x_b") ⟨some (str "g_x")⟩ (some (str "g")) none {} = true
      ∧ str "g_x" ≠ str "g" := by
  exact ⟨by decide, by decide⟩

/-- C3 (amended): for well-formed identifiers — group and user ids free of
underscores, group ids nonempty and none literally `"private"` — the
visibility decision is as claimed: a private timer is visible exactly to
its owning user in a private context and never to a group viewer; group
timers in different sets are mutually invisible; a core viewer sees every
group timer of its own set; a non-core viewer sees only its own group's
timers.  Without the well-formedness assumptions the prefix tests admit
collisions (see the counterexample). -/
theorem c3_visibility (cfg : PConfig) (gt b u vg vu : Str)
    (hgt : '_' ∉ gt) (hvg : '_' ∉ vg) (hu : '_' ∉ u) (hvu : '_' ∉ vu)
    (hgt0 : gt ≠ []) (hgtp : gt ≠ str "private") :
    (shouldShowTimer (deriveTimerId (Scope.priv u) b) ⟨none⟩ none (some vu) cfg = true
        ↔ vu = u)
    ∧ shouldShowTimer (deriveTimerId (Scope.priv u) b) ⟨none⟩ (some vg) none cfg = false
    ∧ (getGroupSet gt cfg ≠ getGroupSet vg cfg →
        shouldShowTimer (deriveTimerId (Scope.group gt) b) ⟨some gt⟩ (some vg) none cfg
          = false)
    ∧ (getGroupSet gt cfg = getGroupSet vg cfg → isCoreGroup vg cfg = true →
        shouldShowTimer (deriveTimerId (Scope.group gt) b) ⟨some gt⟩ (some vg) none cfg
          = true)
    ∧ (isCoreGroup vg cfg = false →
        shouldShowTimer (deriveTimerId (Scope.group gt) b) ⟨some gt⟩ (some vg) none cfg
          = true →
        gt = vg) := by
  have hpriv8 : str "private_" = str "private" ++ ['_'] := by decide
  have hprivmem : '_' ∉ str "private" := by decide
  have hprivno : ∀ zs : Str, (str "private_").isPrefixOf (gt ++ '_' :: zs) = false := by
    intro zs
    have hnot : ¬ ((str "private" ++ ['_']) <+: (gt ++ '_' :: zs)) := by
      rw [sep_key_iff zs hgt hprivmem]
      exact fun hc => hgtp hc.symm
    rw [hpriv8]
    exact Bool.eq_false_iff.mpr fun h => hnot ( List.isPrefixOf_iff_prefix.mp h)
  have htg : timerGroupOf (gt ++ '_' :: b) ⟨some gt⟩ = gt := by
    simp [timerGroupOf, hgt0]
  refine ⟨?_, ?_, ?_, ?_, ?_⟩
  · simp only [shouldShowTimer, deriveTimerId, Option.getD_some]
    rw [List.append_assoc (str "private_") vu ['_'],
      List.append_assoc (str "private_") u ('_' :: b),
      List.isPrefixOf_iff_prefix, List.prefix_append_right_inj,
      sep_key_iff b hu hvu]
  · have hc : (str "private_").isPrefixOf (str "private_" ++ u ++ '_' :: b) = true := by
      rw [List.append_assoc, List.isPrefixOf_iff_prefix]
      exact List.prefix_append _ _
    simp only [shouldShowTimer, deriveTimerId, hc]
    simp
  · intro hsets
    simp only [shouldShowTimer, deriveTimerId, hprivno b]
    rw [if_neg (by simp), htg, if_neg hgt0,
      if_pos (show getGroupSet vg cfg ≠ getGroupSet gt cfg from fun h => hsets h.symm)]
  · intro hsets hcore
    simp only [shouldShowTimer, deriveTimerId, hprivno b]
    rw [if_neg (by simp), htg, if_neg hgt0,
      if_neg (show ¬ getGroupSet vg cfg ≠ getGroupSet gt cfg from fun h => h hsets.symm),
      hcore, if_pos rfl]
  · intro hcore hvis
    simp only [shouldShowTimer, deriveTimerId, hprivno b] at hvis
    rw [if_neg (by simp), htg, if_neg hgt0] at hvis
    by_cases hset : getGroupSet vg cfg ≠ getGroupSet gt cfg
    · rw [if_pos hset] at hvis
      exact absurd hvis (by simp)
    · rw [if_neg hset, hcore] at hvis
      rw [if_neg (by simp)] at hvis
      rw [ List.isPrefixOf_iff_prefix] at hvis
      exact (sep_key_inj b vg gt hgt hvg hvis).symm

theorem c3_visibility_witness :
    shouldShowTimer (deriveTimerId (Scope.group (str "g1")) (str "b"))
        ⟨some (str "g1")⟩ (some (str "g2")) none
        { whitelist_groups := [str "g1"], whitelist_groups_2 := [str "g2"] } = false :=
  (c3_visibility { whitelist_groups := [str "g1"], whitelist_groups_2 := [str "g2"] }
      (str "g1") (str "b") (str "u") (str "g2") (str "u")
      (by decide) (by decide) (by decide) (by decide) (by decide)
      (by decide)).2.2.1 (by decide)

/-! ## Time parsing (`utils/time_utils.py`)

Calendar datetimes are structured values; comparisons are chronological
via a mixed-radix key (both operands always carry the same fixed-offset
zone, so Python's comparison agrees).  The regex
`(\d{1,2}):(\d{1,2})(?::(\d{1,2}))?` is compiled to a direct parser:
each group is greedy, and backtracking on the first group cannot succeed
when two digits are followed by a third, so `take1or2` plus a separator
check is an exact translation. -/

/-- Whitespace stripped by `str.strip()`. -/
def wsC (c : Char) : Bool :=
  decide (c = ' ' ∨ c = '\t' ∨ c = '\n' ∨ c = '\r')

/-- `str.strip()`: drop whitespace from both ends. -/
def stripS (l : Str) : Str :=
  ((l.dropWhile wsC).reverse.dropWhile wsC).reverse

/-- `.replace("：", ":")`: map the full-width colon to ASCII. -/
def replaceFWColon (l : Str) : Str :=
  l.map (fun c => if c = '：' then ':' else c)

/-- The normalisation both parsers apply first:
`time_str.strip().replace("：", ":")`. -/
def normalize (l : Str) : Str := replaceFWColon (stripS l)

/-- Numeric value of an ASCII digit. -/
def digitVal (c : Char) : Nat := c.toNat - '0'.toNat

/-- `int(...)` of a digit string. -/
def natOfDigits (l : Str) : Nat := l.foldl (fun a c => 10 * a + digitVal c) 0

/-- Greedy `\d{1,2}`: one or two leading digits and the remaining input. -/
def take1or2 : Str → Option (Nat × Str)
  | [] => none
  | c1 :: rest =>
    if c1.isDigit then
      match rest with
      | c2 :: rest2 =>
        if c2.isDigit then some (10 * digitVal c1 + digitVal c2, rest2)
        else some (digitVal c1, rest)
      | [] => some (digitVal c1, [])
    else none

/-- `(\d{1,2})` followed by a required separator.  When the greedy match
took two digits the next character is a digit or the separator; a one-digit
retreat would need that digit to equal the separator, which is impossible,
so no backtracking case remains. -/
def takeSep (sep : Char) (cs : Str) : Option (Nat × Str) :=
  match take1or2 cs with
  | some (v, c :: rest) => if c = sep then some (v, rest) else none
  | _ => none

/-- `re.match(r"(\d{1,2}):(\d{1,2})(?::(\d{1,2}))?", ...)`: hour, minute,
optional second (default 0), and the ignored trailing input. -/
def matchHMS (cs : Str) : Option (Nat × Nat × Nat × Str) :=
  match takeSep ':' cs with
  | none => none
  | some (h, rest) =>
    match take1or2 rest with
    | none => none
    | some (mi, rest2) =>
      match rest2 with
      | ':' :: rest3 =>
        match take1or2 rest3 with
        | some (s, rest4) => some (h, mi, s, rest4)
        | none => some (h, mi, 0, rest2)
      | _ => some (h, mi, 0, rest2)

/-- `re.match(r"(\d{1,2})-(\d{1,2})", ...)`: month, day, ignored trail. -/
def matchMMDD (cs : Str) : Option (Nat × Nat × Str) :=
  match takeSep '-' cs with
  | none => none
  | some (mo, rest) =>
    match take1or2 rest with
    | none => none
    | some (d, rest2) => some (mo, d, rest2)

/-- `str.split()`: split on whitespace runs, dropping empty parts. -/
def splitWS (l : Str) : List Str :=
  (l.splitOnP wsC).filter (fun p => decide (p ≠ []))

/-- A calendar datetime (timezone fixed and implicit). -/
structure DT where
  year : Nat
  month : Nat
  day : Nat
  hour : Nat
  minute : Nat
  second : Nat
deriving DecidableEq, Repr

/-- Mixed-radix key: chronological order for valid datetimes. -/
def toKey (t : DT) : Nat :=
  t.second + 100 * (t.minute + 100 * (t.hour + 100 * (t.day + 100 * (t.month + 100 * t.year))))

/-- Gregorian leap year. -/
def leapYear (y : Nat) : Bool :=
  decide (y % 4 = 0 ∧ (y % 100 ≠ 0 ∨ y % 400 = 0))

/-- Days in a month (months 1-12). -/
def daysInMonth (y m : Nat) : Nat :=
  if m = 2 then (if leapYear y then 29 else 28)
  else if m = 4 ∨ m = 6 ∨ m = 9 ∨ m = 11 then 30
  else 31

/-- The field validity `datetime(...)` enforces. -/
def validDT (t : DT) : Prop :=
  1 ≤ t.month ∧ t.month ≤ 12 ∧ 1 ≤ t.day ∧ t.day ≤ daysInMonth t.year t.month
    ∧ t.hour < 24 ∧ t.minute < 60 ∧ t.second < 60

instance (t : DT) : Decidable (validDT t) := by
  unfold validDT
  infer_instance

/-- `datetime(year, month, day, hour, minute, second)`: `none` models the
`ValueError` raised on out-of-range fields. -/
def mkDT? (y mo d h mi s : Nat) : Option DT :=
  if validDT ⟨y, mo, d, h, mi, s⟩ then some ⟨y, mo, d, h, mi, s⟩ else none

/-- `+ timedelta(days=1)` on a valid datetime. -/
def nextDayDT (t : DT) : DT :=
  if t.day < daysInMonth t.year t.month then { t with day := t.day + 1 }
  else if t.month < 12 then { t with month := t.month + 1, day := 1 }
  else { year := t.year + 1, month := 1, day := 1,
         hour := t.hour, minute := t.minute, second := t.second }

/-- `parse_death_time` (time_utils.py lines 147-201). -/
def parseDeathTime (timeStr : Str) (now : DT) : Except Str DT :=
  let t := normalize timeStr
  if t = [] then .ok now
  else if t.all Char.isDigit then
    let m := natOfDigits t
    if m < 60 then .ok { now with minute := m, second := 0 }
    else .error (str "minute must be 0-59")
  else
    match matchHMS t with
    | some (h, mi, s, _) =>
      if h < 24 ∧ mi < 60 ∧ s < 60 then
        .ok { now with hour := h, minute := mi, second := s }
      else .error (str "time format error")
    | none => .error (str "time format error, supported d / d 23 / d 12.30")

/-- `parse_spawn_time` (time_utils.py lines 69-144). -/
def parseSpawnTime (timeStr : Str) (now : DT) : Except Str DT :=
  let t := normalize timeStr
  if ' ' ∈ t then
    match splitWS t with
    | [datePart, timePart] =>
      match matchMMDD datePart with
      | none => .error (str "date format must be MM-DD")
      | some (mo, d, _) =>
        match matchHMS timePart with
        | none => .error (str "time format must be HH.MM or HH.MM.SS")
        | some (h, mi, s, _) =>
          match mkDT? now.year mo d h mi s with
          | none => .error (str "invalid date or time")
          | some st =>
            if toKey st ≤ toKey now then
              match mkDT? (now.year + 1) mo d h mi s with
              | none => .error (str "invalid date or time")
              | some st2 => .ok st2
            else .ok st
    | _ => .error (str "format must be MM-DD HH.MM or MM-DD HH.MM.SS")
  else
    match matchHMS t with
    | none => .error (str "time format must be HH.MM or HH.MM.SS")
    | some (h, mi, s, _) =>
      match mkDT? now.year now.month now.day h mi s with
      | none => .error (str "invalid time value")
      | some st =>
        if toKey st ≤ toKey now then .ok (nextDayDT st) else .ok st

/-- Replace each ASCII colon of the input with a full-width colon. -/
def fwSub (c : Char) : Char := if c = ':' then '：' else c

/-- The concrete `now` of the spec's scenario B: 2024-01-10 16:00:00. -/
def dtA : DT := ⟨2024, 1, 10, 16, 0, 0⟩

/-! ### Time-parsing lemmas -/

theorem wsC_fwSub (c : Char) : wsC (fwSub c) = wsC c := by
  by_cases h : c = ':'
  · subst h; decide
  · simp [fwSub, h]

theorem stripS_map_fwSub (l : Str) : stripS (l.map fwSub) = (stripS l).map fwSub := by
  have hdrop : ∀ l2 : Str, (l2.map fwSub).dropWhile wsC = (l2.dropWhile wsC).map fwSub := by
    intro l2
    rw [List.dropWhile_map]
    have : wsC ∘ fwSub = wsC := by
      funext c
      exact wsC_fwSub c
    rw [this]
  rw [stripS, stripS, hdrop, ← List.map_reverse, hdrop, ← List.map_reverse]

theorem replaceFWColon_map_fwSub (l : Str) :
    replaceFWColon (l.map fwSub) = replaceFWColon l := by
  rw [replaceFWColon, replaceFWColon, List.map_map]
  congr 1
  funext c
  by_cases h1 : c = ':'
  · subst h1; decide
  · by_cases h2 : c = '：'
    · subst h2; decide
    · simp [Function.comp, fwSub, h1, h2]

theorem normalize_map_fwSub (l : Str) : normalize (l.map fwSub) = normalize l := by
  rw [normalize, normalize, stripS_map_fwSub, replaceFWColon_map_fwSub]

theorem mkDT?_some {y mo d h mi s : Nat} {t : DT}
    (hmk : mkDT? y mo d h mi s = some t) :
    t = ⟨y, mo, d, h, mi, s⟩ ∧ validDT t := by
  rw [mkDT?] at hmk
  by_cases hv : validDT ⟨y, mo, d, h, mi, s⟩
  · rw [if_pos hv] at hmk
    cases hmk
    exact ⟨rfl, hv⟩
  · rw [if_neg hv] at hmk
    cases hmk

theorem nextDayDT_time (t : DT) :
    (nextDayDT t).hour = t.hour ∧ (nextDayDT t).minute = t.minute
      ∧ (nextDayDT t).second = t.second := by
  rw [nextDayDT]
  split_ifs <;> exact ⟨rfl, rfl, rfl⟩

theorem daysInMonth_le_31 (y m : Nat) : daysInMonth y m ≤ 31 := by
  rw [daysInMonth]
  split_ifs <;> omega

/-- C6 counterexample: the fragment `12:345` is not a well-formed
`HH:MM[:SS]` time, yet the death-time parser silently accepts it as
12:34:00 — `re.match` ignores trailing characters after a matched prefix. -/
theorem c6_trailing_characters_parsed :
    parseDeathTime (str "12:345") dtA
      = Except.ok ⟨2024, 1, 10, 12, 34, 0⟩ := rfl

/-- C6 (amended): a full-width colon substituted for `:` never changes the
result of either parser, and both parsers return only timestamps whose
fields are in range (`hour < 24`, `minute < 60`, `second < 60`) — every
out-of-range fragment errors.  However a fragment with extra characters
after a valid `HH:MM[:SS]` prefix is parsed from that prefix rather than
rejected (see the counterexample). -/
theorem c6_colon_tolerance_and_ranges :
    (∀ (cs : Str) (now : DT), parseDeathTime (cs.map fwSub) now = parseDeathTime cs now)
    ∧ (∀ (cs : Str) (now : DT), parseSpawnTime (cs.map fwSub) now = parseSpawnTime cs now)
    ∧ (∀ (cs : Str) (now t : DT), validDT now → parseDeathTime cs now = .ok t →
        t.hour < 24 ∧ t.minute < 60 ∧ t.second < 60)
    ∧ (∀ (cs : Str) (now t : DT), parseSpawnTime cs now = .ok t →
        t.hour < 24 ∧ t.minute < 60 ∧ t.second < 60) := by
  refine ⟨?_, ?_, ?_, ?_⟩
  · intro cs now
    simp only [parseDeathTime, normalize_map_fwSub]
  · intro cs now
    simp only [parseSpawnTime, normalize_map_fwSub]
  · intro cs now t hv hok
    simp only [parseDeathTime] at hok
    split at hok
    · cases hok
      exact ⟨hv.2.2.2.2.1, hv.2.2.2.2.2.1, hv.2.2.2.2.2.2⟩
    · split at hok
      · split at hok
        · cases hok
          refine ⟨hv.2.2.2.2.1, by assumption, ?_⟩
          show (0 : Nat) < 60
          omega
        · cases hok
      · split at hok
        · split at hok
          · cases hok
            rename_i hcond
            exact ⟨hcond.1, hcond.2.1, hcond.2.2⟩
          · cases hok
        · cases hok
  · intro cs now t hok
    simp only [parseSpawnTime] at hok
    split at hok
    · split at hok
      · split at hok
        · cases hok
        · split at hok
          · cases hok
          · split at hok
            · cases hok
            · rename_i st hmk
              split at hok
              · split at hok
                · cases hok
                · rename_i st2 hmk2
                  cases hok
                  rcases mkDT?_some hmk2 with ⟨rfl, hv2⟩
                  exact ⟨hv2.2.2.2.2.1, hv2.2.2.2.2.2.1, hv2.2.2.2.2.2.2⟩
              · cases hok
                rcases mkDT?_some hmk with ⟨rfl, hv2⟩
                exact ⟨hv2.2.2.2.2.1, hv2.2.2.2.2.2.1, hv2.2.2.2.2.2.2⟩
      · cases hok
    · split at hok
      · cases hok
      · split at hok
        · cases hok
        · rename_i st hmk
          rcases mkDT?_some hmk with ⟨rfl, hv2⟩
          split at hok
          · cases hok
            rcases nextDayDT_time ⟨now.year, now.month, now.day, _, _, _⟩
              with ⟨h1, h2, h3⟩
            rw [h1, h2, h3]
            exact ⟨hv2.2.2.2.2.1, hv2.2.2.2.2.2.1, hv2.2.2.2.2.2.2⟩
          · cases hok
            exact ⟨hv2.2.2.2.2.1, hv2.2.2.2.2.2.1, hv2.2.2.2.2.2.2⟩

theorem c6_colon_tolerance_witness :
    parseDeathTime ((str "12:30").map fwSub) dtA = parseDeathTime (str "12:30") dtA
    ∧ ((⟨2024, 1, 10, 12, 30, 0⟩ : DT).hour < 24
        ∧ (⟨2024, 1, 10, 12, 30, 0⟩ : DT).minute < 60
        ∧ (⟨2024, 1, 10, 12, 30, 0⟩ : DT).second < 60) :=
  ⟨c6_colon_tolerance_and_ranges.1 (str "12:30") dtA,
   c6_colon_tolerance_and_ranges.2.2.1 (str "12:30") dtA ⟨2024, 1, 10, 12, 30, 0⟩
     (by decide) rfl⟩

theorem toKey_lt_nextDay (now : DT) (h mi s : Nat) (hv : validDT now)
    (hh : h < 24) (hmi : mi < 60) (hs : s < 60) :
    toKey now < toKey (nextDayDT ⟨now.year, now.month, now.day, h, mi, s⟩) := by
  obtain ⟨hm1, hm2, hd1, hd2, hh0, hmi0, hs0⟩ := hv
  have hdim := daysInMonth_le_31 now.year now.month
  rw [nextDayDT]
  split_ifs with h1 h2
  · simp only [toKey]
    omega
  · simp only [toKey]
    omega
  · simp only [toKey]
    omega

/-- C7: for a bare `HH:MM[:SS]` fragment, `parse_spawn_time` takes today at
that time of day and rolls to tomorrow when that instant is not after
`now`, so the returned instant is always strictly in the future. -/
theorem c7_bare_spawn_strictly_future (cs : Str) (now : DT) (h mi s : Nat)
    (rest : Str) (hv : validDT now) (hnos : ' ' ∉ normalize cs)
    (hm : matchHMS (normalize cs) = some (h, mi, s, rest))
    (hh : h < 24) (hmi : mi < 60) (hs : s < 60) :
    parseSpawnTime cs now
      = .ok (if toKey ⟨now.year, now.month, now.day, h, mi, s⟩ ≤ toKey now
          then nextDayDT ⟨now.year, now.month, now.day, h, mi, s⟩
          else ⟨now.year, now.month, now.day, h, mi, s⟩)
    ∧ toKey now
        < toKey (if toKey ⟨now.year, now.month, now.day, h, mi, s⟩ ≤ toKey now
            then nextDayDT ⟨now.year, now.month, now.day, h, mi, s⟩
            else ⟨now.year, now.month, now.day, h, mi, s⟩) := by
  have hvt : validDT ⟨now.year, now.month, now.day, h, mi, s⟩ := by
    obtain ⟨a1, a2, a3, a4, _, _, _⟩ := hv
    exact ⟨a1, a2, a3, a4, hh, hmi, hs⟩
  have hmk : mkDT? now.year now.month now.day h mi s
      = some ⟨now.year, now.month, now.day, h, mi, s⟩ := by
    rw [mkDT?, if_pos hvt]
  constructor
  · simp only [parseSpawnTime]
    rw [if_neg hnos]
    simp only [hm, hmk]
    by_cases hle : toKey ⟨now.year, now.month, now.day, h, mi, s⟩ ≤ toKey now
    · rw [if_pos hle, if_pos hle]
    · rw [if_neg hle, if_neg hle]
  · by_cases hle : toKey ⟨now.year, now.month, now.day, h, mi, s⟩ ≤ toKey now
    · rw [if_pos hle]
      exact toKey_lt_nextDay now h mi s hv hh hmi hs
    · rw [if_neg hle]
      omega

theorem c7_scenario_b_witness :
    parseSpawnTime (str "15:30") dtA = Except.ok ⟨2024, 1, 11, 15, 30, 0⟩
    ∧ toKey dtA < toKey ⟨2024, 1, 11, 15, 30, 0⟩ := by
  have hc := c7_bare_spawn_strictly_future (str "15:30") dtA 15 30 0 []
    (by decide) (by decide) (by decide) (by decide) (by decide) (by decide)
  exact ⟨hc.1.trans (by rfl), by decide⟩

end TwomBoss
